import Mathlib

/-!
Shallow embedding of the market-data core of the `jcp` repository
(push scheduler, market-data cache, change detector, trading calendar,
subscription registry), together with theorems checking the spec's claims.

Numeric convention: Go `float64` values are modelled as `ℚ` and Go `int64`
values as `ℤ`.  Wall-clock instants are modelled as `ℚ` seconds.  Fallible
Go calls (network fetches, file reads) are modelled as explicit
`Except`/`Option` parameters or environment fields, so every definition is
executable.
-/

namespace JcpSpec

/-! ### Numeric field parsing

The quote source returns comma-delimited records whose numeric fields the Go
code parses with `strconv.ParseFloat`/`strconv.ParseInt`, ignoring the error
(a malformed field yields the zero value).  We model the plain decimal
subset of those parsers: an optional sign followed by digits with an
optional fractional part (the wire format of this feed); exponent, hex and
inf/nan forms are outside the model.  -/

/-- Numeric value of a digit list, most significant first
(`foldl`-accumulated, as a hand-rolled `atoi` would). -/
def natOfDigits (cs : List Char) : ℕ :=
  cs.foldl (fun a c => a * 10 + (c.toNat - 48)) 0

/-- Split a character list at the first `'.'`; `none` when no dot occurs. -/
def splitAtDot : List Char → List Char × Option (List Char)
  | [] => ([], none)
  | '.' :: r => ([], some r)
  | c :: r =>
    let p := splitAtDot r
    (c :: p.1, p.2)

/-- Strip an optional leading sign, returning the sign as `±1`. -/
def stripSign : List Char → ℤ × List Char
  | '+' :: r => (1, r)
  | '-' :: r => (-1, r)
  | r => (1, r)

/-- Decimal syntax scan: sign, scaled integer significand and power-of-ten
denominator of the value, or `none` when the string is not a plain decimal
(no digits at all, a stray character, or a second dot). -/
def parseDecimalParts (s : String) : Option (ℤ × ℕ × ℕ) :=
  let sr := stripSign s.toList
  let p := splitAtDot sr.2
  let ip := p.1
  let fp := (p.2).getD []
  if (ip.isEmpty && fp.isEmpty) || !ip.all Char.isDigit || !fp.all Char.isDigit then
    none
  else
    some (sr.1, natOfDigits ip * 10 ^ fp.length + natOfDigits fp, 10 ^ fp.length)

/-- `strconv.ParseFloat` on the plain decimal subset, as an exact rational. -/
def parseDecimal (s : String) : Option ℚ :=
  (parseDecimalParts s).map fun p => (p.1 : ℚ) * (p.2.1 : ℚ) / (p.2.2 : ℚ)

/-- `ParseFloat` with the error ignored: a malformed field parses to `0`
(the Go code discards `err` with `_`). -/
def parseFloatD (s : String) : ℚ :=
  (parseDecimal s).getD 0

/-- `strconv.ParseInt` (base 10) on the plain decimal-integer subset. -/
def parseInt64 (s : String) : Option ℤ :=
  let sr := stripSign s.toList
  if sr.2.isEmpty || !sr.2.all Char.isDigit then none
  else some (sr.1 * (natOfDigits sr.2 : ℤ))

/-- `ParseInt` with the error ignored: a malformed field parses to `0`. -/
def parseIntD (s : String) : ℤ :=
  (parseInt64 s).getD 0

/-- `strings.Split(s, ",")` (every record of this feed is comma-delimited). -/
def splitCommaAux : List Char → List Char → List String
  | acc, [] => [String.mk acc.reverse]
  | acc, ',' :: r => String.mk acc.reverse :: splitCommaAux [] r
  | acc, c :: r => splitCommaAux (c :: acc) r

/-- Comma-splitting entry point used on each raw quote record. -/
def splitComma (s : String) : List String :=
  splitCommaAux [] s.toList

/-! ### Data model

Modelled from the spec: the `internal/models` package is not among the
sources, so the record shapes below follow the spec's data model (§3)
together with the fields the core code reads and writes. -/

/-- Modelled from the spec: a security quote (spec §3 "Quote"); field names
follow the Go code's accesses (`Price`, `PreClose`, …). -/
structure Stock where
  symbol : String
  name : String
  price : ℚ
  openPrice : ℚ
  high : ℚ
  low : ℚ
  preClose : ℚ
  change : ℚ
  changePercent : ℚ
  volume : ℤ
  amount : ℚ
  deriving Repr, DecidableEq

/-- Modelled from the spec: one order-book level (spec §3 "OrderBookLevel"):
price, size in lots, derived cumulative size and derived fraction of the
largest level on the side. -/
structure OrderBookItem where
  price : ℚ
  size : ℤ
  total : ℤ
  percent : ℚ
  deriving Repr, DecidableEq

/-- Modelled from the spec: an order-book snapshot of up to five bid and five
ask levels, best first (spec §3 "OrderBookSnapshot"). -/
structure OrderBook where
  bids : List OrderBookItem
  asks : List OrderBookItem
  deriving Repr, DecidableEq

/-- A quote together with its parsed order book (Go `StockWithOrderBook`). -/
structure StockWithOrderBook where
  stock : Stock
  orderBook : OrderBook
  deriving Repr, DecidableEq

/-- Modelled from the spec: a candlestick bucket (spec §3 "Candle"); fields
follow the Go code's accesses (`Time`, `Close`, `Avg`, `MA5`, …). -/
structure KLineData where
  time : String
  openPrice : ℚ
  high : ℚ
  low : ℚ
  closePrice : ℚ
  volume : ℤ
  amount : ℚ
  ma5 : ℚ
  ma10 : ℚ
  ma20 : ℚ
  avg : ℚ
  deriving Repr, DecidableEq

/-- Result record of `GetMarketStatus` (Go `MarketStatus`). -/
structure MarketStatus where
  status : String
  statusText : String
  isTradeDay : Bool
  holidayName : String
  deriving Repr, DecidableEq

/-- Modelled from the spec: a news-flash item; the push task consults only
its content string (Go reads only `.Content`). -/
structure Telegraph where
  content : String
  deriving Repr, DecidableEq

/-! ### Quote and order-book parsing (`MarketService`) -/

/-- Field access `parts[i]` of a raw record.  Callers of the Go parsers
guarantee `len(parts) >= 32` (checked in `parseSinaStockData` /
`parseSinaStockDataWithOrderBook`), so the in-range default never shows up
on real paths; we totalize with `""`, which parses to `0`. -/
def fieldAt (parts : List String) (i : ℕ) : String :=
  parts.getD i ""

/-- `MarketService.parseStockFields`: field extraction of a quote record
plus the derived change fields computed at parse time. -/
def parseStockFields (code : String) (parts : List String) : Stock :=
  let price := parseFloatD (fieldAt parts 3)
  let openPrice := parseFloatD (fieldAt parts 1)
  let high := parseFloatD (fieldAt parts 4)
  let low := parseFloatD (fieldAt parts 5)
  let preClose := parseFloatD (fieldAt parts 2)
  let volume := parseIntD (fieldAt parts 8)
  let amount := parseFloatD (fieldAt parts 9)
  let change := price - preClose
  let changePercent := if preClose > 0 then change / preClose * 100 else 0
  { symbol := code
    name := fieldAt parts 0
    price := price
    openPrice := openPrice
    high := high
    low := low
    preClose := preClose
    change := change
    changePercent := changePercent
    volume := volume
    amount := amount }

/-- `MarketService.calculateOrderBookTotals`: recompute the running
cumulative size and, when the side has a positive largest level, each
level's fraction of that largest size (in-place mutation in Go, modelled as
returning the rewritten list). -/
def calculateOrderBookTotals (items : List OrderBookItem) : List OrderBookItem :=
  if items.isEmpty then items
  else
    let maxSize := items.foldl (fun m it => if it.size > m then it.size else m) 0
    (items.foldl
      (fun (st : List OrderBookItem × ℤ) it =>
        let total := st.2 + it.size
        let it' := { it with
          total := total
          percent := if maxSize > 0 then (it.size : ℚ) / (maxSize : ℚ) else it.percent }
        (st.1 ++ [it'], total))
      ([], 0)).1

/-- One iteration of the Go five-level loop: level `i` of a side whose
volume/price pair sits at offsets `base + 2*i` / `base + 1 + 2*i`; the level
is appended only when its price field is in range and parses positive
(sizes are converted from shares to lots by truncated division by 100). -/
def orderBookLevelStep (parts : List String) (base : ℕ)
    (acc : List OrderBookItem) (i : ℕ) : List OrderBookItem :=
  let volIdx := base + i * 2
  let priceIdx := base + 1 + i * 2
  if priceIdx < parts.length then
    let vol := parseIntD (fieldAt parts volIdx)
    let price := parseFloatD (fieldAt parts priceIdx)
    if price > 0 then acc ++ [⟨price, Int.tdiv vol 100, 0, 0⟩] else acc
  else acc

/-- `MarketService.parseStockWithOrderBook`: quote fields plus the five bid
levels (offsets 10–19) and five ask levels (offsets 20–29), each side
guarded by a record-length check and post-processed by
`calculateOrderBookTotals`. -/
def parseStockWithOrderBook (code : String) (parts : List String) : StockWithOrderBook :=
  let stock := parseStockFields code parts
  let bids :=
    if 20 ≤ parts.length then
      (List.range 5).foldl (orderBookLevelStep parts 10) []
    else []
  let asks :=
    if 30 ≤ parts.length then
      (List.range 5).foldl (orderBookLevelStep parts 20) []
    else []
  { stock := stock
    orderBook := { bids := calculateOrderBookTotals bids
                   asks := calculateOrderBookTotals asks } }

/-! ### Change detector (`orderBookHash`) -/

/-- Round a rational to the nearest integer, ties to even — the rounding Go's
`fmt` applies when formatting with a fixed number of decimals. -/
def roundHalfEven (q : ℚ) : ℤ :=
  let f := ⌊q⌋
  let r := q - (f : ℚ)
  if r < 1 / 2 then f
  else if 1 / 2 < r then f + 1
  else if f % 2 = 0 then f else f + 1

/-- Go `fmt` verb `%.2f` on a (rational-modelled) float: sign of the value,
then the magnitude rounded to two decimals. -/
def fmt2 (q : ℚ) : String :=
  let m := (roundHalfEven ((if q < 0 then -q else q) * 100)).toNat
  (if q < 0 then "-" else "") ++ toString (m / 100) ++ "." ++
    (if m % 100 < 10 then "0" else "") ++ toString (m % 100)

/-- Go `fmt` verb `%.0f`: sign, then the magnitude rounded to an integer. -/
def fmt0 (q : ℚ) : String :=
  (if q < 0 then "-" else "") ++
    toString (roundHalfEven (if q < 0 then -q else q)).toNat

/-- `orderBookHash`: the change-detection fingerprint
`"%.2f:%.0f:%.2f:%.0f"` of best-bid price/size and best-ask price/size,
with zeros standing in for an empty side. -/
def orderBookHash (ob : OrderBook) : String :=
  let bp : ℚ × ℚ := match ob.bids with
    | b :: _ => (b.price, (b.size : ℚ))
    | [] => (0, 0)
  let ap : ℚ × ℚ := match ob.asks with
    | a :: _ => (a.price, (a.size : ℚ))
    | [] => (0, 0)
  fmt2 bp.1 ++ ":" ++ fmt0 bp.2 ++ ":" ++ fmt2 ap.1 ++ ":" ++ fmt0 ap.2

/-- The top of book of a snapshot: best-bid price/size and best-ask
price/size, `none` for an empty side. -/
def topOfBook (ob : OrderBook) : Option (ℚ × ℚ) × Option (ℚ × ℚ) :=
  (ob.bids.head?.map fun b => (b.price, (b.size : ℚ)),
   ob.asks.head?.map fun a => (a.price, (a.size : ℚ)))

/-! ### Market status (`GetMarketStatus`) -/

/-- `MarketService.GetMarketStatus`, with the ambient wall clock abstracted
to its observations: whether `isTradeDay` holds for today (with the holiday
name it reports), whether today is a Saturday/Sunday, and the minute of the
day on the fixed UTC+8 civil clock (`hour*60 + minute`). -/
def GetMarketStatus (isTradeDay : Bool) (holidayName : String)
    (isWeekend : Bool) (currentMinutes : ℕ) : MarketStatus :=
  if !isTradeDay then
    let statusText :=
      if holidayName ≠ "" then holidayName ++ "休市"
      else if isWeekend then "周末休市"
      else "休市"
    { status := "closed", statusText := statusText
      isTradeDay := false, holidayName := holidayName }
  else if currentMinutes < 9 * 60 + 15 then
    { status := "pre_market", statusText := "盘前", isTradeDay := true, holidayName := "" }
  else if currentMinutes < 9 * 60 + 30 then
    { status := "pre_market", statusText := "集合竞价", isTradeDay := true, holidayName := "" }
  else if currentMinutes < 11 * 60 + 30 then
    { status := "trading", statusText := "交易中", isTradeDay := true, holidayName := "" }
  else if currentMinutes < 13 * 60 then
    { status := "lunch_break", statusText := "午间休市", isTradeDay := true, holidayName := "" }
  else if currentMinutes < 15 * 60 then
    { status := "trading", statusText := "交易中", isTradeDay := true, holidayName := "" }
  else
    { status := "closed", statusText := "已收盘", isTradeDay := true, holidayName := "" }

/-- The spec's five session phases (spec §3 "SessionPhase"). -/
inductive SessionPhase where
  | preMarket
  | preMarketAuction
  | trading
  | lunchBreak
  | closed
  deriving Repr, DecidableEq

/-- Read a `MarketStatus` record back as a spec `SessionPhase`.  The code's
machine-readable `status` string has only four values; the auction band is
the unique `pre_market` record carrying the dedicated auction status text,
so the five spec phases are in bijection with the records the code can
produce at a given trade-day flag. -/
def sessionPhaseOfStatus (s : MarketStatus) : SessionPhase :=
  if s.status = "trading" then .trading
  else if s.status = "lunch_break" then .lunchBreak
  else if s.status = "pre_market" then
    (if s.statusText = "集合竞价" then .preMarketAuction else .preMarket)
  else .closed

/-- The phase classification exactly as the spec words it (spec §4.1):
`closed` off trade days, otherwise the five boundary-ordered bands by
minute of day. -/
def specClassifyPhase (isTradeDay : Bool) (m : ℕ) : SessionPhase :=
  if !isTradeDay then .closed
  else if m < 9 * 60 + 15 then .preMarket
  else if m < 9 * 60 + 30 then .preMarketAuction
  else if m < 11 * 60 + 30 then .trading
  else if m < 13 * 60 then .lunchBreak
  else if m < 15 * 60 then .trading
  else .closed

/-! ### Candle time parsing (`parseKLineTime`) -/

/-- Two-digit numeric field of a layout match. -/
def num2 (a b : Char) : ℕ :=
  (a.toNat - 48) * 10 + (b.toNat - 48)

/-- Leap-year test of the proleptic Gregorian calendar. -/
def isLeapYear (y : ℤ) : Bool :=
  y % 4 = 0 && (y % 100 ≠ 0 || y % 400 = 0)

/-- Number of days of month `m` of year `y`. -/
def daysInMonth (y : ℤ) (m : ℕ) : ℕ :=
  if m = 2 then (if isLeapYear y then 29 else 28)
  else if m = 4 ∨ m = 6 ∨ m = 9 ∨ m = 11 then 30
  else 31

/-- Days between the given Gregorian civil date and 1970-01-01
(the standard era-based civil-calendar conversion, as `time.Date` computes
it). -/
def daysFromCivil (y : ℤ) (m d : ℕ) : ℤ :=
  let y' := if m ≤ 2 then y - 1 else y
  let era := Int.fdiv y' 400
  let yoe := y' - era * 400
  let mp : ℤ := if 2 < m then (m : ℤ) - 3 else (m : ℤ) + 9
  let doy := (153 * mp + 2) / 5 + (d : ℤ) - 1
  let doe := yoe * 365 + yoe / 4 - yoe / 100 + doy
  era * 146097 + doe - 719468

/-- `time.Parse("2006-01-02 15:04:05", t).Unix()`: a strict scan of the
fixed zero-padded layout (the only shape the candle feed emits), validated
field ranges, converted to Unix seconds in UTC. -/
def parseDateTime (t : String) : Option ℤ :=
  match t.toList with
  | [y1, y2, y3, y4, '-', o1, o2, '-', d1, d2, ' ',
     h1, h2, ':', i1, i2, ':', s1, s2] =>
    if [y1, y2, y3, y4, o1, o2, d1, d2, h1, h2, i1, i2, s1, s2].all Char.isDigit then
      let y : ℤ := (natOfDigits [y1, y2, y3, y4] : ℤ)
      let mo := num2 o1 o2
      let d := num2 d1 d2
      let h := num2 h1 h2
      let mi := num2 i1 i2
      let s := num2 s1 s2
      if 1 ≤ mo ∧ mo ≤ 12 ∧ 1 ≤ d ∧ d ≤ daysInMonth y mo ∧
          h < 24 ∧ mi < 60 ∧ s < 60 then
        some (daysFromCivil y mo d * 86400 + (h : ℤ) * 3600 + (mi : ℤ) * 60 + (s : ℤ))
      else none
    else none
  | _ => none

/-- `parseKLineTime`: bucket label to Unix seconds, `0` when unparseable
(the Go function returns `0` on a `time.Parse` error). -/
def parseKLineTime (t : String) : ℤ :=
  (parseDateTime t).getD 0

/-! ### Push scheduler state machines (`MarketDataPusher`) -/

/-- `KLineSubscription`: the current candle subscription. -/
structure KLineSubscription where
  code : String
  period : String
  deriving Repr, DecidableEq

/-- Pusher state consulted by the incremental candle task: the subscription
and the timestamp of the last bucket already pushed. -/
structure KLinePushState where
  sub : KLineSubscription
  lastKLineTime : ℤ
  deriving Repr, DecidableEq

/-- A published candle event: the payload map
`{code, period, data, incremental?}` (full pushes omit the key, i.e. carry
`incremental = false`). -/
structure KLinePush where
  code : String
  period : String
  data : List KLineData
  incremental : Bool
  deriving Repr, DecidableEq

/-- The `market:kline:subscribe` listener: a non-empty code and period
replace the subscription and reset the incremental marker to `0`. -/
def setKLineSubscription (st : KLinePushState) (code period : String) : KLinePushState :=
  if code ≠ "" ∧ period ≠ "" then
    { sub := { code := code, period := period }, lastKLineTime := 0 }
  else st

/-- `pushKLineMinute`: the incremental 1-minute candle task.  The fetch of
the newest five buckets is an explicit `Except` parameter; the result is the
new pusher state together with the list of emitted events (empty or a
single incremental push). -/
def pushKLineMinute (st : KLinePushState) (fetch : Except Unit (List KLineData)) :
    KLinePushState × List KLinePush :=
  if st.sub.code = "" ∨ st.sub.period ≠ "1m" then (st, [])
  else
    match fetch with
    | .error _ => (st, [])
    | .ok [] => (st, [])
    | .ok (k :: ks) =>
      let latest := (k :: ks).getLast (List.cons_ne_nil k ks)
      let latestTime := parseKLineTime latest.time
      let st' := { st with lastKLineTime := latestTime }
      if st.lastKLineTime = 0 ∨ latestTime ≠ st.lastKLineTime then
        (st', [{ code := st.sub.code, period := "1m", data := [latest], incremental := true }])
      else (st', [])

/-- `pushTelegraphData`: the news-flash task.  State is the content of the
last pushed flash; the task looks only at the head (latest) item of the
fetched list, publishes it only when its content differs, and records the
content it publishes. -/
def pushTelegraphData (lastContent : String) (fetch : Except Unit (List Telegraph)) :
    String × Option Telegraph :=
  match fetch with
  | .error _ => (lastContent, none)
  | .ok [] => (lastContent, none)
  | .ok (latest :: _) =>
    if latest.content = lastContent then (lastContent, none)
    else (latest.content, some latest)

/-- Iterated news-flash task: fold `pushTelegraphData` over a sequence of
fetch results, collecting the published events in order. -/
def runTelegraph (lastContent : String) :
    List (Except Unit (List Telegraph)) → String × List Telegraph
  | [] => (lastContent, [])
  | f :: fs =>
    let step := pushTelegraphData lastContent f
    let rest := runTelegraph step.1 fs
    (rest.1, step.2.toList ++ rest.2)

/-- `AddSubscription`: append the code unless already watched. -/
def AddSubscription (codes : List String) (code : String) : List String :=
  if codes.contains code then codes else codes ++ [code]

/-- `RemoveSubscription`: drop the first occurrence of the code, if any. -/
def RemoveSubscription : List String → String → List String
  | [], _ => []
  | c :: rest, code =>
    if c = code then rest else c :: RemoveSubscription rest code

/-! ### Market data cache (`MarketService` caches) -/

/-- Insert-or-replace in an association list (a Go map write). -/
def assocSet {κ α : Type} [BEq κ] (m : List (κ × α)) (k : κ) (v : α) :
    List (κ × α) :=
  (k, v) :: m.filter (fun p => p.1 != k)

/-- Byte-order comparison of character lists (UTF-8 byte order coincides
with code-point order, so this is Go's `sort.Strings` order). -/
def lexLe : List Char → List Char → Bool
  | [], _ => true
  | _ :: _, [] => false
  | a :: ar, b :: br =>
    if a.val < b.val then true
    else if b.val < a.val then false
    else lexLe ar br

/-- Insertion step of the ascending string sort. -/
def insertStringSorted (s : String) : List String → List String
  | [] => [s]
  | t :: rest =>
    if lexLe s.toList t.toList then s :: t :: rest
    else t :: insertStringSorted s rest

/-- `sort.Strings`: ascending sort of the symbol list. -/
def sortStrings (l : List String) : List String :=
  l.foldr insertStringSorted []

/-- Quote-cache key: the symbol list sorted and comma-joined. -/
def stockCacheKey (codes : List String) : String :=
  String.intercalate "," (sortStrings codes)

/-- Candle-cache key: `fmt.Sprintf("%s:%s:%d", code, period, days)`. -/
def klineCacheKey (code period : String) (days : ℕ) : String :=
  code ++ ":" ++ period ++ ":" ++ toString days

/-- A quote-cache entry: payload plus capture timestamp. -/
structure stockCache where
  data : List StockWithOrderBook
  timestamp : ℚ
  deriving Repr, DecidableEq

/-- A candle-cache entry: payload plus capture timestamp. -/
structure klineCache where
  data : List KLineData
  timestamp : ℚ
  deriving Repr, DecidableEq

/-- The two `MarketService` cache maps. -/
structure MarketServiceState where
  cache : List (String × stockCache)
  klineCache : List (String × klineCache)
  deriving Repr, DecidableEq

/-- Quote-family TTL: 2 seconds. -/
def cacheTTL : ℚ := 2

/-- Candle-family TTL: 2 seconds. -/
def klineCacheTTL : ℚ := 2

/-- `GetStockDataWithOrderBook`: lookup-or-fetch-and-store keyed by the
sorted joined symbol list.  The upstream fetch
(`fetchStockDataWithOrderBook`) is an explicit `Except` parameter; the
returned `Bool` records whether the upstream fetch was consulted. -/
def GetStockDataWithOrderBook (st : MarketServiceState) (now : ℚ)
    (codes : List String) (fetch : Except Unit (List StockWithOrderBook)) :
    Except Unit (List StockWithOrderBook) × MarketServiceState × Bool :=
  if codes.isEmpty then (.ok [], st, false)
  else
    let key := stockCacheKey codes
    let hit : Option (List StockWithOrderBook) :=
      match st.cache.lookup key with
      | some c => if now - c.timestamp < cacheTTL then some c.data else none
      | none => none
    match hit with
    | some d => (.ok d, st, false)
    | none =>
      match fetch with
      | .error e => (.error e, st, true)
      | .ok data =>
        (.ok data, { st with cache := assocSet st.cache key ⟨data, now⟩ }, true)

/-- `GetKLineData`: lookup-or-fetch-and-store keyed by
symbol + period + count.  The `fetch` parameter stands for
`fetchKLineData` (network fetch plus intraday filtering/VWAP, which happen
before the result is cached). -/
def GetKLineData (st : MarketServiceState) (now : ℚ) (code period : String)
    (days : ℕ) (fetch : Except Unit (List KLineData)) :
    Except Unit (List KLineData) × MarketServiceState × Bool :=
  let key := klineCacheKey code period days
  let hit : Option (List KLineData) :=
    match st.klineCache.lookup key with
    | some c => if now - c.timestamp < klineCacheTTL then some c.data else none
    | none => none
  match hit with
  | some d => (.ok d, st, false)
  | none =>
    match fetch with
    | .error e => (.error e, st, true)
    | .ok data =>
      (.ok data, { st with klineCache := assocSet st.klineCache key ⟨data, now⟩ }, true)

/-! ### Trading calendar (holiday data and trade dates) -/

/-- One entry of the yearly holiday dataset. -/
structure holidayDay where
  name : String
  date : String
  isOffDay : Bool
  deriving Repr, DecidableEq

/-- The yearly holiday dataset (`holidayData`). -/
structure holidayData where
  year : ℤ
  days : List holidayDay
  deriving Repr, DecidableEq

/-- The calendar's three data tiers, modelled as an explicit environment:
the in-memory per-year map, the on-disk per-year cache file (`none` when
the file is missing or does not decode), and the remote CDN fetch (`none`
when the network call or decode fails). -/
structure HolidayEnv where
  mem : List (ℤ × List (String × Bool))
  disk : ℤ → Option holidayData
  remote : ℤ → Option holidayData

/-- `parseHolidayData`: the dataset as a date → is-off-day map. -/
def parseHolidayData (hd : holidayData) : List (String × Bool) :=
  hd.days.foldl (fun m d => assocSet m d.date d.isOffDay) []

/-- `loadHolidayData`: in-memory map, then disk file, then remote fetch;
a successful fetch populates both the disk file and the in-memory map,
and a fetch failure with no usable tier propagates as an error. -/
def loadHolidayData (env : HolidayEnv) (year : ℤ) :
    Except String (List (String × Bool) × HolidayEnv) :=
  match env.mem.lookup year with
  | some data => .ok (data, env)
  | none =>
    match env.disk year with
    | some hd =>
      let data := parseHolidayData hd
      .ok (data, { env with mem := assocSet env.mem year data })
    | none =>
      match env.remote year with
      | none => .error "获取节假日数据失败"
      | some hd =>
        let data := parseHolidayData hd
        .ok (data,
          { env with
            mem := assocSet env.mem year data
            disk := fun y => if y = year then some hd else env.disk y })

/-- `getHolidayNote`: re-read the year's cache file and return the name
attached to the date, or `""`. -/
def getHolidayNote (env : HolidayEnv) (year : ℤ) (dateStr : String) : String :=
  match env.disk year with
  | none => ""
  | some hd => ((hd.days.find? (fun d => d.date == dateStr)).map (·.name)).getD ""

/-- The observations `GetMarketStatus`/`isTradeDay` make of a `time.Time`:
its year, its `2006-01-02` rendering, and its weekday
(Go numbering, `0` = Sunday … `6` = Saturday). -/
structure GoDate where
  year : ℤ
  dateStr : String
  weekday : ℕ
  deriving Repr, DecidableEq

/-- `getHolidayStatus`: look the date up in its year's holiday table.  A
`loadHolidayData` failure is logged and swallowed — the date then reports
`(isOffDay := false, inList := false, note := "")` exactly as a date absent
from the table would. -/
def getHolidayStatus (env : HolidayEnv) (date : GoDate) :
    (Bool × Bool × String) × HolidayEnv :=
  match loadHolidayData env date.year with
  | .error _ => ((false, false, ""), env)
  | .ok (yearData, env') =>
    match yearData.lookup date.dateStr with
    | some isOff => ((isOff, true, getHolidayNote env' date.year date.dateStr), env')
    | none => ((false, false, ""), env')

/-- `isTradeDay`: weekends short-circuit to non-trading; otherwise holidays
(off-days present in the table) are non-trading and everything else is a
trading day. -/
def isTradeDay (env : HolidayEnv) (date : GoDate) : (Bool × String) × HolidayEnv :=
  if date.weekday = 6 ∨ date.weekday = 0 then ((false, "周末"), env)
  else
    let r := getHolidayStatus env date
    let isOff := r.1.1
    let inList := r.1.2.1
    let note := r.1.2.2
    if inList ∧ isOff then ((false, note), r.2) else ((true, ""), r.2)

/-! ### Rolling trade-date window (`GetTradeDates`) -/

/-- The on-disk rolling trade-date cache. -/
structure tradeDatesCache where
  tradeDates : List String
  updatedAt : ℚ
  deriving Repr, DecidableEq

/-- Freshness bound of the trade-date cache: 24 hours, in seconds. -/
def tradeDatesMaxAge : ℚ := 24 * 3600

/-- `filterTradeDates`: truncate the window to the requested day count. -/
def filterTradeDates (dates : List String) (days : ℕ) : List String :=
  if dates.length ≤ days then dates else dates.take days

/-- `GetTradeDates`: serve a fresh non-empty cache; otherwise refresh via
`fetchTradeDates` (an explicit `Except` parameter).  When the refresh fails
a present non-empty cache is returned stale with a warning (the `Bool`
records that warning path); only with no usable cache does the error
propagate.  The best-effort save of the refreshed window is outside the
model (its failure is only logged). -/
def GetTradeDates (cached : Option tradeDatesCache) (now : ℚ)
    (fetch : Except String (List String)) (days : ℕ) :
    Except String (List String) × Bool :=
  let fresh : Option (List String) :=
    match cached with
    | some c =>
      if 0 < c.tradeDates.length ∧ now - c.updatedAt < tradeDatesMaxAge then
        some (filterTradeDates c.tradeDates days)
      else none
    | none => none
  match fresh with
  | some r => (.ok r, false)
  | none =>
    match fetch with
    | .error e =>
      match cached with
      | some c =>
        if 0 < c.tradeDates.length then
          (.ok (filterTradeDates c.tradeDates days), true)
        else (.error e, false)
      | none => (.error e, false)
    | .ok tradeDates => (.ok (filterTradeDates tradeDates days), false)

/-! ## Claims -/

/-- C1: on a trading day `GetMarketStatus` classifies every minute of the
fixed UTC+8 civil clock into exactly the spec's six boundary-ordered bands
— `m < 9:15` pre-market, `9:15 ≤ m < 9:30` pre-market auction,
`9:30 ≤ m < 11:30` trading, `11:30 ≤ m < 13:00` lunch break,
`13:00 ≤ m < 15:00` trading and `m ≥ 15:00` closed — and on a non-trading
day every minute is closed; the classification is total, so the 24-hour
clock is covered with no gaps and each boundary minute falls on the
documented side. -/
theorem GetMarketStatus_phase_partition (td : Bool) (name : String)
    (wk : Bool) (m : ℕ) :
    sessionPhaseOfStatus (GetMarketStatus td name wk m) = specClassifyPhase td m := by
  cases td with
  | false => rfl
  | true =>
    simp only [GetMarketStatus, specClassifyPhase, Bool.not_true, Bool.false_eq_true,
      if_false]
    split_ifs <;> rfl

/-- C8: adding an already-watched symbol leaves the watchlist unchanged, and
removing an absent symbol is a no-op. -/
theorem subscription_add_remove_idempotent :
    (∀ (codes : List String) (code : String), code ∈ codes →
      AddSubscription codes code = codes) ∧
    (∀ (codes : List String) (code : String), code ∉ codes →
      RemoveSubscription codes code = codes) := by
  constructor
  · intro codes code h
    simp [AddSubscription, h]
  · intro codes code h
    induction codes with
    | nil => rfl
    | cons c rest ih =>
      simp only [List.mem_cons, not_or] at h
      have hne : ¬(c = code) := fun hc => h.1 hc.symm
      simp [RemoveSubscription, hne, ih h.2]

/-- Witness for C8 at a concrete registry. -/
theorem subscription_add_remove_idempotent_witness :
    ("600000" ∈ ["600000", "600519"] ∧
      AddSubscription ["600000", "600519"] "600000" = ["600000", "600519"]) ∧
    ("000001" ∉ ["600000", "600519"] ∧
      RemoveSubscription ["600000", "600519"] "000001" = ["600000", "600519"]) :=
  ⟨⟨by decide, subscription_add_remove_idempotent.1 _ _ (by decide)⟩,
   ⟨by decide, subscription_add_remove_idempotent.2 _ _ (by decide)⟩⟩

/-- C9: a present non-empty trade-date cache that is at least 24 hours old
is still served (filtered to the requested day count, which equals a
`take`) when the refresh fails — with the warning path taken and never an
error. -/
theorem GetTradeDates_stale_fallback (c : tradeDatesCache) (now : ℚ)
    (e : String) (days : ℕ) (hne : c.tradeDates ≠ [])
    (hstale : tradeDatesMaxAge ≤ now - c.updatedAt) :
    GetTradeDates (some c) now (.error e) days =
      (.ok (filterTradeDates c.tradeDates days), true) ∧
    ∀ (dates : List String) (n : ℕ), filterTradeDates dates n = dates.take n := by
  constructor
  · have hlen : 0 < c.tradeDates.length := List.length_pos.mpr hne
    have hfreshFail : ¬(now - c.updatedAt < tradeDatesMaxAge) := not_lt.mpr hstale
    simp [GetTradeDates, hlen, hfreshFail]
  · intro dates n
    by_cases hl : dates.length ≤ n
    · simp [filterTradeDates, hl, List.take_of_length_le hl]
    · simp [filterTradeDates, hl]

/-- Witness for C9: a one-day cache, 25 hours old, refresh failing. -/
theorem GetTradeDates_stale_fallback_witness :
    (["2025-01-08"] : List String) ≠ [] ∧
    tradeDatesMaxAge ≤ (90000 : ℚ) - 0 ∧
    GetTradeDates (some ⟨["2025-01-08"], 0⟩) 90000 (.error "network down") 5 =
      (.ok (filterTradeDates ["2025-01-08"] 5), true) :=
  ⟨by decide, by norm_num [tradeDatesMaxAge],
   (GetTradeDates_stale_fallback ⟨["2025-01-08"], 0⟩ 90000 "network down" 5
     (by decide) (by norm_num [tradeDatesMaxAge])).1⟩

/-- Trace invariant of the news-flash task: along any sequence of fetch
results, the published flashes have pairwise-distinct consecutive contents,
and the first one published differs from the recorded content the trace
started with. -/
lemma runTelegraph_head_chain (st : String)
    (fs : List (Except Unit (List Telegraph))) :
    List.Chain' (fun a b => a.content ≠ b.content) (runTelegraph st fs).2 ∧
    ∀ e ∈ (runTelegraph st fs).2.head?, e.content ≠ st := by
  induction fs generalizing st with
  | nil => simp [runTelegraph]
  | cons f fs ih =>
    cases f with
    | error u =>
      simpa [runTelegraph, pushTelegraphData] using ih st
    | ok l =>
      cases l with
      | nil => simpa [runTelegraph, pushTelegraphData] using ih st
      | cons latest rest =>
        by_cases hc : latest.content = st
        · simpa [runTelegraph, pushTelegraphData, hc] using ih st
        · simp only [runTelegraph, pushTelegraphData, if_neg hc, Option.toList_some,
            List.singleton_append]
          refine ⟨List.chain'_cons'.mpr ⟨fun b hb => ?_, (ih latest.content).1⟩, ?_⟩
          · exact ((ih latest.content).2 b hb).symm
          · intro e he
            simp only [List.head?_cons, Option.mem_def, Option.some_inj] at he
            simpa [← he] using hc

/-- C10: the news-flash push task considers only the head (latest) item of
the fetched list, publishes it exactly when its content differs from the
last published content, records the content it publishes, and hence never
publishes two consecutive flashes with identical content along any trace. -/
theorem pushTelegraphData_no_consecutive_duplicates :
    (∀ (lastContent : String) (fetch : Except Unit (List Telegraph)) (t : Telegraph),
      ((pushTelegraphData lastContent fetch).2 = some t ↔
        ∃ rest, fetch = .ok (t :: rest) ∧ t.content ≠ lastContent) ∧
      ((pushTelegraphData lastContent fetch).2 = some t →
        (pushTelegraphData lastContent fetch).1 = t.content)) ∧
    (∀ (lastContent : String) (fs : List (Except Unit (List Telegraph))),
      List.Chain' (fun a b => a.content ≠ b.content)
        (runTelegraph lastContent fs).2) := by
  constructor
  · intro lc fetch t
    cases fetch with
    | error u => simp [pushTelegraphData]
    | ok l =>
      cases l with
      | nil => simp [pushTelegraphData]
      | cons latest rest =>
        by_cases hc : latest.content = lc
        · simp only [pushTelegraphData, if_pos hc]
          constructor
          · constructor
            · rintro ⟨⟩
            · rintro ⟨r, heq, hne⟩
              obtain ⟨rfl, rfl⟩ : t = latest ∧ r = rest := by
                injection heq with h2
                exact ⟨(List.cons.injEq .. ▸ h2).1.symm, (List.cons.injEq .. ▸ h2).2.symm⟩
              exact absurd hc hne
          · rintro ⟨⟩
        · simp only [pushTelegraphData, if_neg hc]
          constructor
          · constructor
            · rintro h
              obtain rfl : latest = t := by simpa using h
              exact ⟨rest, rfl, hc⟩
            · rintro ⟨r, heq, hne⟩
              obtain ⟨rfl, rfl⟩ : t = latest ∧ r = rest := by
                injection heq with h2
                exact ⟨(List.cons.injEq .. ▸ h2).1.symm, (List.cons.injEq .. ▸ h2).2.symm⟩
              rfl
          · intro h
            obtain rfl : latest = t := by simpa using h
            rfl
  · intro lc fs
    exact (runTelegraph_head_chain lc fs).1

/-- Witness for C10: from an empty record, a fetch whose latest item is new
is published and its content recorded. -/
theorem pushTelegraphData_no_consecutive_duplicates_witness :
    (pushTelegraphData "" (.ok [⟨"breaking"⟩])).2 = some ⟨"breaking"⟩ ∧
    (pushTelegraphData "" (.ok [⟨"breaking"⟩])).1 = "breaking" := by
  have h := pushTelegraphData_no_consecutive_duplicates.1 "" (.ok [⟨"breaking"⟩]) ⟨"breaking"⟩
  have h2 : (pushTelegraphData "" (.ok [⟨"breaking"⟩])).2 = some ⟨"breaking"⟩ :=
    h.1.mpr ⟨[], rfl, by decide⟩
  exact ⟨h2, h.2 h2⟩

/-- Cache state used by the C6 witness: one quote entry under the key for
`["600000"]` and one candle entry, both captured at time `0`. -/
def cacheWitnessState : MarketServiceState :=
  { cache := [("600000", ⟨[], 0⟩)]
    klineCache := [("600000:1m:5", ⟨[], 0⟩)] }

/-- C6: for both cache families, a read strictly inside the TTL returns the
stored payload unchanged without consulting the upstream fetch, and a read
at or past the TTL consults the upstream fetch and replaces the entry with
the fresh result. -/
theorem marketCache_ttl_semantics :
    (∀ (st : MarketServiceState) (now : ℚ) (codes : List String)
        (fetch : Except Unit (List StockWithOrderBook)) (c : stockCache),
      codes ≠ [] → st.cache.lookup (stockCacheKey codes) = some c →
      now - c.timestamp < cacheTTL →
      GetStockDataWithOrderBook st now codes fetch = (.ok c.data, st, false)) ∧
    (∀ (st : MarketServiceState) (now : ℚ) (codes : List String)
        (d : List StockWithOrderBook) (c : stockCache),
      codes ≠ [] → st.cache.lookup (stockCacheKey codes) = some c →
      cacheTTL ≤ now - c.timestamp →
      GetStockDataWithOrderBook st now codes (.ok d) =
        (.ok d, { st with cache := assocSet st.cache (stockCacheKey codes) ⟨d, now⟩ },
         true)) ∧
    (∀ (st : MarketServiceState) (now : ℚ) (code period : String) (days : ℕ)
        (fetch : Except Unit (List KLineData)) (c : klineCache),
      st.klineCache.lookup (klineCacheKey code period days) = some c →
      now - c.timestamp < klineCacheTTL →
      GetKLineData st now code period days fetch = (.ok c.data, st, false)) ∧
    (∀ (st : MarketServiceState) (now : ℚ) (code period : String) (days : ℕ)
        (d : List KLineData) (c : klineCache),
      st.klineCache.lookup (klineCacheKey code period days) = some c →
      klineCacheTTL ≤ now - c.timestamp →
      GetKLineData st now code period days (.ok d) =
        (.ok d,
         { st with klineCache :=
            assocSet st.klineCache (klineCacheKey code period days) ⟨d, now⟩ },
         true)) := by
  refine ⟨?_, ?_, ?_, ?_⟩
  · intro st now codes fetch c hcodes hl httl
    simp [GetStockDataWithOrderBook, hcodes, hl, httl]
  · intro st now codes d c hcodes hl httl
    have h2 : ¬(now - c.timestamp < cacheTTL) := not_lt.mpr httl
    simp [GetStockDataWithOrderBook, hcodes, hl, h2]
  · intro st now code period days fetch c hl httl
    simp [GetKLineData, hl, httl]
  · intro st now code period days d c hl httl
    have h2 : ¬(now - c.timestamp < klineCacheTTL) := not_lt.mpr httl
    simp [GetKLineData, hl, h2]

/-- Witness for C6: reads at `now = 1` (inside TTL) and `now = 3` (past the
2-second TTL) against entries captured at time `0`. -/
theorem marketCache_ttl_semantics_witness :
    GetStockDataWithOrderBook cacheWitnessState 1 ["600000"] (.error ()) =
      (.ok [], cacheWitnessState, false) ∧
    GetStockDataWithOrderBook cacheWitnessState 3 ["600000"] (.ok []) =
      (.ok [],
       { cacheWitnessState with
          cache := assocSet cacheWitnessState.cache (stockCacheKey ["600000"]) ⟨[], 3⟩ },
       true) ∧
    GetKLineData cacheWitnessState 1 "600000" "1m" 5 (.error ()) =
      (.ok [], cacheWitnessState, false) ∧
    GetKLineData cacheWitnessState 3 "600000" "1m" 5 (.ok []) =
      (.ok [],
       { cacheWitnessState with
          klineCache :=
            assocSet cacheWitnessState.klineCache (klineCacheKey "600000" "1m" 5) ⟨[], 3⟩ },
       true) :=
  ⟨marketCache_ttl_semantics.1 cacheWitnessState 1 ["600000"] (.error ()) ⟨[], 0⟩
      (by decide) rfl (by norm_num [cacheTTL]),
   marketCache_ttl_semantics.2.1 cacheWitnessState 3 ["600000"] [] ⟨[], 0⟩
      (by decide) rfl (by norm_num [cacheTTL]),
   marketCache_ttl_semantics.2.2.1 cacheWitnessState 1 "600000" "1m" 5 (.error ()) ⟨[], 0⟩
      rfl (by norm_num [klineCacheTTL]),
   marketCache_ttl_semantics.2.2.2 cacheWitnessState 3 "600000" "1m" 5 [] ⟨[], 0⟩
      rfl (by norm_num [klineCacheTTL])⟩

/-- The newest bucket of a non-empty fetch result (`klines[len(klines)-1]`). -/
def lastBucket (k : KLineData) (ks : List KLineData) : KLineData :=
  (k :: ks).getLast (List.cons_ne_nil k ks)

/-- C4: with an active 1-minute subscription and a successful non-empty
fetch, the incremental task publishes nothing when the newest bucket's
timestamp equals the recorded (non-reset) one; when the marker is reset
(`0`) or the timestamp differs it publishes exactly the newest bucket
tagged incremental; it always records the newest timestamp, so a second
fetch with the same newest (parseable) timestamp publishes nothing. -/
theorem pushKLineMinute_incremental_push (st : KLinePushState) (k : KLineData)
    (ks : List KLineData) (hcode : st.sub.code ≠ "") (hper : st.sub.period = "1m") :
    ((st.lastKLineTime ≠ 0 →
        parseKLineTime (lastBucket k ks).time = st.lastKLineTime →
        (pushKLineMinute st (.ok (k :: ks))).2 = []) ∧
     (st.lastKLineTime = 0 ∨ parseKLineTime (lastBucket k ks).time ≠ st.lastKLineTime →
        (pushKLineMinute st (.ok (k :: ks))).2 =
          [{ code := st.sub.code, period := "1m", data := [lastBucket k ks],
             incremental := true }]) ∧
     (pushKLineMinute st (.ok (k :: ks))).1 =
        { st with lastKLineTime := parseKLineTime (lastBucket k ks).time } ∧
     (parseKLineTime (lastBucket k ks).time ≠ 0 →
        (pushKLineMinute (pushKLineMinute st (.ok (k :: ks))).1 (.ok (k :: ks))).2 = [])) := by
  have hguard : ¬(st.sub.code = "" ∨ st.sub.period ≠ "1m") := by
    simp [hcode, hper]
  refine ⟨?_, ?_, ?_, ?_⟩
  · intro h0 heq
    have hcond : ¬(st.lastKLineTime = 0 ∨
        parseKLineTime (lastBucket k ks).time ≠ st.lastKLineTime) := by
      simp [h0, heq]
    simp only [lastBucket] at hcond
    simp [pushKLineMinute, hguard, lastBucket, hcond]
  · intro hcond
    simp only [lastBucket] at hcond
    simp [pushKLineMinute, hguard, lastBucket, hcond]
  · by_cases hcond : st.lastKLineTime = 0 ∨
        parseKLineTime (lastBucket k ks).time ≠ st.lastKLineTime
    · simp only [lastBucket] at hcond
      simp [pushKLineMinute, hguard, lastBucket, hcond]
    · simp only [lastBucket] at hcond
      simp [pushKLineMinute, hguard, lastBucket, hcond]
  · intro hlt
    by_cases hcond : st.lastKLineTime = 0 ∨
        parseKLineTime (lastBucket k ks).time ≠ st.lastKLineTime
    · simp only [lastBucket] at hcond hlt
      simp [pushKLineMinute, hguard, hcond, hlt]
    · simp only [lastBucket] at hcond hlt
      simp [pushKLineMinute, hguard, hcond, hlt]

/-- Witness bucket for C4. -/
def c4Bucket : KLineData :=
  { time := "2025-01-08 10:30:00", openPrice := 0, high := 0, low := 0,
    closePrice := 0, volume := 0, amount := 0, ma5 := 0, ma10 := 0, ma20 := 0,
    avg := 0 }

/-- Witness for C4: from a freshly (re)set subscription a first fetch
publishes one incremental bucket, and a second fetch with the same newest
timestamp publishes nothing. -/
theorem pushKLineMinute_incremental_push_witness :
    (pushKLineMinute ⟨⟨"600000", "1m"⟩, 0⟩ (.ok [c4Bucket])).2 =
      [{ code := "600000", period := "1m", data := [c4Bucket], incremental := true }] ∧
    (pushKLineMinute (pushKLineMinute ⟨⟨"600000", "1m"⟩, 0⟩ (.ok [c4Bucket])).1
        (.ok [c4Bucket])).2 = [] := by
  have h := pushKLineMinute_incremental_push ⟨⟨"600000", "1m"⟩, 0⟩ c4Bucket []
    (by decide) rfl
  exact ⟨h.2.1 (Or.inl rfl), h.2.2.2 (by decide)⟩

/-- Environment with all three holiday-data tiers unavailable. -/
def c5Env : HolidayEnv :=
  { mem := [], disk := fun _ => none, remote := fun _ => none }

/-- A Wednesday (weekday 3) used by the C5 counterexample. -/
def c5Date : GoDate :=
  { year := 2025, dateStr := "2025-01-08", weekday := 3 }

/-- Counterexample to C5: with memory, disk and remote all unavailable,
`loadHolidayData` does error, but the trading-day resolution
(`getHolidayStatus` / `isTradeDay`) swallows that error and classifies the
non-weekend date as an ordinary trading day — no error reaches the caller
(the return types have no error channel at all). -/
theorem getHolidayStatus_swallows_unavailability :
    loadHolidayData c5Env 2025 = .error "获取节假日数据失败" ∧
    getHolidayStatus c5Env c5Date = ((false, false, ""), c5Env) ∧
    isTradeDay c5Env c5Date = ((true, ""), c5Env) :=
  ⟨rfl, rfl, rfl⟩

/-- C5 (amended): when no tier has the year's data, the data-unavailable
error is propagated by `loadHolidayData` to its caller, but the trading-day
resolution built on it catches the error, logs a warning and classifies the
non-weekend date as an ordinary trading day (as if absent from the holiday
table) instead of propagating. -/
theorem loadHolidayData_error_swallowed (env : HolidayEnv) (date : GoDate)
    (hmem : env.mem.lookup date.year = none)
    (hdisk : env.disk date.year = none)
    (hremote : env.remote date.year = none)
    (hwk6 : date.weekday ≠ 6) (hwk0 : date.weekday ≠ 0) :
    loadHolidayData env date.year = .error "获取节假日数据失败" ∧
    getHolidayStatus env date = ((false, false, ""), env) ∧
    isTradeDay env date = ((true, ""), env) := by
  have hload : loadHolidayData env date.year = .error "获取节假日数据失败" := by
    simp [loadHolidayData, hmem, hdisk, hremote]
  have hstatus : getHolidayStatus env date = ((false, false, ""), env) := by
    simp [getHolidayStatus, hload]
  refine ⟨hload, hstatus, ?_⟩
  simp [isTradeDay, hwk6, hwk0, hstatus]

/-- Witness for C5's amended theorem at the concrete empty environment. -/
theorem loadHolidayData_error_swallowed_witness :
    c5Env.mem.lookup c5Date.year = none ∧ c5Env.disk c5Date.year = none ∧
    c5Env.remote c5Date.year = none ∧ c5Date.weekday ≠ 6 ∧ c5Date.weekday ≠ 0 ∧
    isTradeDay c5Env c5Date = ((true, ""), c5Env) :=
  ⟨rfl, rfl, rfl, by decide, by decide,
   (loadHolidayData_error_swallowed c5Env c5Date rfl rfl rfl (by decide)
     (by decide)).2.2⟩

/-- `fmt2` depends on a non-negative value only through the half-even
rounding of its hundredfold. -/
lemma fmt2_congr (p q : ℚ) (hp : ¬p < 0) (hq : ¬q < 0)
    (h : roundHalfEven (p * 100) = roundHalfEven (q * 100)) : fmt2 p = fmt2 q := by
  simp only [fmt2, if_neg hp, if_neg hq, h]

/-- `orderBookHash` rewritten as a function of the top of book alone. -/
lemma orderBookHash_eq_top (ob : OrderBook) :
    orderBookHash ob =
      fmt2 ((topOfBook ob).1.getD (0, 0)).1 ++ ":" ++
        fmt0 ((topOfBook ob).1.getD (0, 0)).2 ++ ":" ++
        fmt2 ((topOfBook ob).2.getD (0, 0)).1 ++ ":" ++
        fmt0 ((topOfBook ob).2.getD (0, 0)).2 := by
  cases h1 : ob.bids <;> cases h2 : ob.asks <;>
    simp [orderBookHash, topOfBook, h1, h2]

/-- C3 (amended): the fingerprint is a function of top-of-book alone — two
snapshots with identical best-bid and best-ask price/size fingerprint
equal no matter how the deeper levels differ (so a changed fingerprint
implies a changed top of book); but a differing top of book need not
change the fingerprint, which only sees prices to two decimals. -/
theorem orderBookHash_function_of_top (ob1 ob2 : OrderBook)
    (h : topOfBook ob1 = topOfBook ob2) :
    orderBookHash ob1 = orderBookHash ob2 := by
  rw [orderBookHash_eq_top, orderBookHash_eq_top, h]

/-- First snapshot of the C3 witness: two bid levels, one ask level. -/
def c3ObA : OrderBook :=
  { bids := [⟨10, 100, 0, 0⟩, ⟨9, 200, 0, 0⟩], asks := [⟨11, 300, 0, 0⟩] }

/-- Second snapshot of the C3 witness: same top of book, different depth. -/
def c3ObB : OrderBook :=
  { bids := [⟨10, 100, 0, 0⟩, ⟨8, 500, 700, 1⟩],
    asks := [⟨11, 300, 0, 0⟩, ⟨12, 400, 0, 0⟩] }

/-- Witness for C3's amended theorem: identical top of book, different
deeper levels, equal fingerprints. -/
theorem orderBookHash_function_of_top_witness :
    topOfBook c3ObA = topOfBook c3ObB ∧ orderBookHash c3ObA = orderBookHash c3ObB :=
  ⟨rfl, orderBookHash_function_of_top c3ObA c3ObB rfl⟩

/-- Counterexample snapshot: best bid price `10.001`. -/
def c3ObC : OrderBook :=
  { bids := [⟨(10001 : ℚ) / 1000, 100, 0, 0⟩], asks := [⟨11, 300, 0, 0⟩] }

/-- Counterexample snapshot: best bid price `10.002`. -/
def c3ObD : OrderBook :=
  { bids := [⟨(10002 : ℚ) / 1000, 100, 0, 0⟩], asks := [⟨11, 300, 0, 0⟩] }

/-- Counterexample to C3: these snapshots differ in best-bid price, yet the
fingerprint does not change — both prices format as `10.00` under the
two-decimal `%.2f` verb, so "different value iff top-of-book differs"
fails in the "only if" direction. -/
theorem orderBookHash_misses_small_change :
    topOfBook c3ObC ≠ topOfBook c3ObD ∧
    orderBookHash c3ObC = orderBookHash c3ObD := by
  constructor
  · intro h
    simp only [topOfBook, c3ObC, c3ObD, List.head?_cons, Option.map_some',
      Prod.mk.injEq, Option.some.injEq] at h
    exact absurd h.1.1 (by norm_num)
  · have e1 : roundHalfEven ((10001 : ℚ) / 1000 * 100) = 1000 := by
      simp only [roundHalfEven]
      norm_num
    have e2 : roundHalfEven ((10002 : ℚ) / 1000 * 100) = 1000 := by
      simp only [roundHalfEven]
      norm_num
    have hf : fmt2 ((10001 : ℚ) / 1000) = fmt2 ((10002 : ℚ) / 1000) :=
      fmt2_congr _ _ (by norm_num) (by norm_num) (e1.trans e2.symm)
    simp only [orderBookHash, c3ObC, c3ObD]
    rw [hf]

/-- The level a side's five-slot scan yields at index `i`: present exactly
when the record is long enough to hold the price field and that field
parses to a positive price. -/
def levelAt? (parts : List String) (base i : ℕ) : Option OrderBookItem :=
  if base + 1 + i * 2 < parts.length ∧ 0 < parseFloatD (fieldAt parts (base + 1 + i * 2)) then
    some ⟨parseFloatD (fieldAt parts (base + 1 + i * 2)),
          Int.tdiv (parseIntD (fieldAt parts (base + i * 2))) 100, 0, 0⟩
  else none

/-- Each Go loop iteration appends the optional level of its index. -/
lemma orderBookLevelStep_eq (parts : List String) (base : ℕ)
    (acc : List OrderBookItem) (i : ℕ) :
    orderBookLevelStep parts base acc i = acc ++ (levelAt? parts base i).toList := by
  unfold orderBookLevelStep levelAt?
  by_cases h1 : base + 1 + i * 2 < parts.length
  · by_cases h2 : 0 < parseFloatD (fieldAt parts (base + 1 + i * 2))
    · simp [h1, h2]
    · simp [h1, h2]
  · simp [h1]

/-- Folding optional appends is `filterMap`. -/
lemma foldl_toList_append {α β : Type} (f : β → Option α) (l : List β)
    (acc : List α) :
    l.foldl (fun a i => a ++ (f i).toList) acc = acc ++ l.filterMap f := by
  induction l generalizing acc with
  | nil => simp
  | cons x xs ih => cases hx : f x <;> simp [ih, hx]

/-- The five-slot scan of a side, in `filterMap` form. -/
lemma foldl_orderBookLevelStep (parts : List String) (base : ℕ) :
    (List.range 5).foldl (orderBookLevelStep parts base) [] =
      (List.range 5).filterMap (levelAt? parts base) := by
  have h : (List.range 5).foldl (orderBookLevelStep parts base) [] =
      (List.range 5).foldl (fun a i => a ++ (levelAt? parts base i).toList) [] := by
    apply List.foldl_ext
    intro a i _
    exact orderBookLevelStep_eq parts base a i
  rw [h, foldl_toList_append]
  rfl

/-- The totals pass rewrites sizes and percents but keeps each level's
price: auxiliary form with the side's maximum size fixed. -/
lemma totalsAux_map_price (ms : ℤ) (items : List OrderBookItem) :
    ∀ (acc : List OrderBookItem) (t : ℤ),
      ((items.foldl
        (fun (st : List OrderBookItem × ℤ) it =>
          let total := st.2 + it.size
          let it' := { it with
            total := total
            percent := if ms > 0 then (it.size : ℚ) / (ms : ℚ) else it.percent }
          (st.1 ++ [it'], total))
        (acc, t)).1).map (·.price) =
      acc.map (·.price) ++ items.map (·.price) := by
  induction items with
  | nil => intro acc t; simp
  | cons x xs ih =>
    intro acc t
    refine Eq.trans
      (ih (acc ++ [{ x with
        total := t + x.size
        percent := if 0 < ms then (x.size : ℚ) / (ms : ℚ) else x.percent }])
        (t + x.size)) ?_
    simp

/-- `calculateOrderBookTotals` preserves the sequence of level prices. -/
lemma calculateOrderBookTotals_map_price (items : List OrderBookItem) :
    (calculateOrderBookTotals items).map (·.price) = items.map (·.price) := by
  cases items with
  | nil => rfl
  | cons x xs =>
    have h := totalsAux_map_price
      ((x :: xs).foldl (fun m it => if it.size > m then it.size else m) 0)
      (x :: xs) [] 0
    simpa [calculateOrderBookTotals] using h

/-- Both sides of the parsed book, characterized level by level. -/
lemma parseStockWithOrderBook_books (code : String) (parts : List String) :
    (parseStockWithOrderBook code parts).orderBook.bids =
      calculateOrderBookTotals
        (if 20 ≤ parts.length then (List.range 5).filterMap (levelAt? parts 10) else []) ∧
    (parseStockWithOrderBook code parts).orderBook.asks =
      calculateOrderBookTotals
        (if 30 ≤ parts.length then (List.range 5).filterMap (levelAt? parts 20) else []) := by
  constructor <;>
    · simp only [parseStockWithOrderBook]
      split_ifs <;> simp [foldl_orderBookLevelStep]

/-- Positive significand and denominator force a positive parsed value. -/
lemma parseFloatD_pos (s : String) (n d : ℕ)
    (h : parseDecimalParts s = some (1, n, d)) (hn : 0 < n) (hd : 0 < d) :
    0 < parseFloatD s := by
  simp only [parseFloatD, parseDecimal, h, Option.map_some', Option.getD_some]
  have h1 : ((1 : ℤ) : ℚ) = 1 := by norm_num
  rw [h1, one_mul]
  exact div_pos (by exact_mod_cast hn) (by exact_mod_cast hd)

/-- A zero significand parses to zero. -/
lemma parseFloatD_zero (s : String) (sg : ℤ) (d : ℕ)
    (h : parseDecimalParts s = some (sg, 0, d)) : parseFloatD s = 0 := by
  simp [parseFloatD, parseDecimal, h]

/-- C2 (amended): a level whose price field is missing (record too short)
or parses to zero (or is malformed) is dropped from its side, but parsing
of the side does not stop there — every later in-range level with a
positive price still appears, in order; each side is scanned only when the
record is long enough for all of its ten fields (20 fields for bids, 30
for asks), and only positive-priced levels ever appear. -/
theorem parseStockWithOrderBook_zero_price_skips_level (code : String)
    (parts : List String) :
    ((parseStockWithOrderBook code parts).orderBook.bids =
      calculateOrderBookTotals
        (if 20 ≤ parts.length then (List.range 5).filterMap (levelAt? parts 10) else [])) ∧
    ((parseStockWithOrderBook code parts).orderBook.asks =
      calculateOrderBookTotals
        (if 30 ≤ parts.length then (List.range 5).filterMap (levelAt? parts 20) else [])) ∧
    (∀ p ∈ ((parseStockWithOrderBook code parts).orderBook.bids).map (·.price), 0 < p) ∧
    (∀ p ∈ ((parseStockWithOrderBook code parts).orderBook.asks).map (·.price), 0 < p) := by
  obtain ⟨hb, ha⟩ := parseStockWithOrderBook_books code parts
  refine ⟨hb, ha, ?_, ?_⟩
  · intro p hp
    rw [hb, calculateOrderBookTotals_map_price] at hp
    rcases (by simpa using hp :
        ∃ item, (item ∈ if 20 ≤ parts.length then
          (List.range 5).filterMap (levelAt? parts 10) else []) ∧ item.price = p)
      with ⟨item, hmem, hprice⟩
    by_cases hlen : 20 ≤ parts.length
    · rw [if_pos hlen] at hmem
      obtain ⟨i, _, hlev⟩ := List.mem_filterMap.mp hmem
      unfold levelAt? at hlev
      split at hlev
      · next hc =>
        cases hlev
        simpa [← hprice] using hc.2
      · cases hlev
    · rw [if_neg hlen] at hmem
      cases hmem
  · intro p hp
    rw [ha, calculateOrderBookTotals_map_price] at hp
    rcases (by simpa using hp :
        ∃ item, (item ∈ if 30 ≤ parts.length then
          (List.range 5).filterMap (levelAt? parts 20) else []) ∧ item.price = p)
      with ⟨item, hmem, hprice⟩
    by_cases hlen : 30 ≤ parts.length
    · rw [if_pos hlen] at hmem
      obtain ⟨i, _, hlev⟩ := List.mem_filterMap.mp hmem
      unfold levelAt? at hlev
      split at hlev
      · next hc =>
        cases hlev
        simpa [← hprice] using hc.2
      · cases hlev
    · rw [if_neg hlen] at hmem
      cases hmem

/-- Raw record of the C2 counterexample: bid level 2 (fields 12/13) carries
price `0`; bid levels 3–5 carry positive prices. -/
def c2parts : List String :=
  ["浦发银行", "10.00", "9.90", "10.05", "10.10", "9.80", "10.04", "10.05",
   "1000000", "10050000",
   "100", "10.04", "200", "0", "300", "10.02", "400", "10.01", "500", "10.00",
   "100", "10.05", "200", "10.06", "300", "10.07", "400", "10.08", "500", "10.09",
   "2025-01-08", "10:30:00", "00"]

/-- Counterexample to C2: in `c2parts` the second bid level's price parses
to zero, yet the third bid level (price field 15, `"10.02"`) still appears
in the parsed side — a zero-priced level is skipped, it does not terminate
the side's parsing. -/
theorem parseStockWithOrderBook_no_early_termination :
    parseFloatD (fieldAt c2parts 13) = 0 ∧
    ∃ item ∈ (parseStockWithOrderBook "sh600000" c2parts).orderBook.bids,
      item.price = parseFloatD (fieldAt c2parts 15) ∧ 0 < item.price := by
  have hf13 : fieldAt c2parts 13 = "0" := by decide
  have hf15 : fieldAt c2parts 15 = "10.02" := by decide
  have hz : parseFloatD "0" = 0 :=
    parseFloatD_zero "0" 1 1 (by decide)
  have hp02 : 0 < parseFloatD "10.02" :=
    parseFloatD_pos "10.02" 1002 100 (by decide) (by decide) (by decide)
  have hp04 : 0 < parseFloatD "10.04" :=
    parseFloatD_pos "10.04" 1004 100 (by decide) (by decide) (by decide)
  have hp01 : 0 < parseFloatD "10.01" :=
    parseFloatD_pos "10.01" 1001 100 (by decide) (by decide) (by decide)
  have hp00 : 0 < parseFloatD "10.00" :=
    parseFloatD_pos "10.00" 1000 100 (by decide) (by decide) (by decide)
  refine ⟨by rw [hf13, hz], ?_⟩
  have hb := (parseStockWithOrderBook_books "sh600000" c2parts).1
  rw [if_pos (by decide : 20 ≤ c2parts.length)] at hb
  have hrange : List.range 5 = [0, 1, 2, 3, 4] := by decide
  have hfm : ((List.range 5).filterMap (levelAt? c2parts 10)).map (·.price) =
      [parseFloatD "10.04", parseFloatD "10.02", parseFloatD "10.01",
       parseFloatD "10.00"] := by
    rw [hrange]
    simp only [List.filterMap_cons, List.filterMap_nil, levelAt?]
    norm_num [fieldAt, c2parts, hz, hp04, hp02, hp01, hp00]
  have hmap : ((parseStockWithOrderBook "sh600000" c2parts).orderBook.bids).map (·.price) =
      [parseFloatD "10.04", parseFloatD "10.02", parseFloatD "10.01",
       parseFloatD "10.00"] := by
    rw [hb, calculateOrderBookTotals_map_price, hfm]
  have hmem : parseFloatD (fieldAt c2parts 15) ∈
      ((parseStockWithOrderBook "sh600000" c2parts).orderBook.bids).map (·.price) := by
    rw [hmap, hf15]
    simp
  obtain ⟨item, hitem, hpeq⟩ := List.mem_map.mp hmem
  exact ⟨item, hitem, hpeq, by rw [hpeq, hf15]; exact hp02⟩

/-- The raw record of C7's scenario (name field standing first, then
open, previous close, price, high, low, …, volume, amount). -/
def c7record : String :=
  "600000,10.00,9.90,10.05,10.10,9.80,10.06,10.04,1000000,10150000"

/-- The quote C7's scenario parses. -/
def c7stock : Stock :=
  parseStockFields "600000" (splitComma c7record)

/-- C7: parsing derives `change = price − preClose` and
`changePercent = change/preClose·100` when `preClose > 0` (else `0`); on
the scenario record the parsed quote has `open = 10.00`,
`preClose = 9.90`, `price = 10.05`, `change = 0.15` and
`changePercent = 50/33 ≈ 1.515%`. -/
theorem parseStockFields_derives_change :
    (∀ (code : String) (parts : List String),
      (parseStockFields code parts).change =
        (parseStockFields code parts).price - (parseStockFields code parts).preClose ∧
      (parseStockFields code parts).changePercent =
        (if (parseStockFields code parts).preClose > 0 then
          (parseStockFields code parts).change /
            (parseStockFields code parts).preClose * 100
         else 0) ∧
      (parseStockFields code parts).price = parseFloatD (fieldAt parts 3) ∧
      (parseStockFields code parts).openPrice = parseFloatD (fieldAt parts 1) ∧
      (parseStockFields code parts).preClose = parseFloatD (fieldAt parts 2)) ∧
    (c7stock.openPrice = 10 ∧ c7stock.preClose = 99 / 10 ∧
      c7stock.price = 201 / 20 ∧ c7stock.change = 3 / 20 ∧
      c7stock.changePercent = 50 / 33 ∧
      1515 / 1000 < c7stock.changePercent ∧ c7stock.changePercent < 1516 / 1000) := by
  constructor
  · intro code parts
    exact ⟨rfl, rfl, rfl, rfl, rfl⟩
  · have hsplit : splitComma c7record =
        ["600000", "10.00", "9.90", "10.05", "10.10", "9.80", "10.06", "10.04",
         "1000000", "10150000"] := by decide
    have e1 : parseFloatD "10.00" = 10 := by
      simp only [parseFloatD, parseDecimal,
        (by decide : parseDecimalParts "10.00" = some (1, 1000, 100)),
        Option.map_some', Option.getD_some]
      norm_num
    have e2 : parseFloatD "9.90" = 99 / 10 := by
      simp only [parseFloatD, parseDecimal,
        (by decide : parseDecimalParts "9.90" = some (1, 990, 100)),
        Option.map_some', Option.getD_some]
      norm_num
    have e3 : parseFloatD "10.05" = 201 / 20 := by
      simp only [parseFloatD, parseDecimal,
        (by decide : parseDecimalParts "10.05" = some (1, 1005, 100)),
        Option.map_some', Option.getD_some]
      norm_num
    have hopen : c7stock.openPrice = 10 := by
      simp [c7stock, parseStockFields, hsplit, fieldAt, e1]
    have hpre : c7stock.preClose = 99 / 10 := by
      simp [c7stock, parseStockFields, hsplit, fieldAt, e2]
    have hprice : c7stock.price = 201 / 20 := by
      simp [c7stock, parseStockFields, hsplit, fieldAt, e3]
    have hchange : c7stock.change = 3 / 20 := by
      simp [c7stock, parseStockFields, hsplit, fieldAt, e2, e3]
      norm_num
    have hcp : c7stock.changePercent = 50 / 33 := by
      simp [c7stock, parseStockFields, hsplit, fieldAt, e2, e3]
      norm_num
    exact ⟨hopen, hpre, hprice, hchange, hcp,
      by rw [hcp]; norm_num, by rw [hcp]; norm_num⟩

end JcpSpec
